import Mathlib

/-!
Verification development for the llm-viz repository (an interactive
visualization of GSM8K responses with token-level confidence metrics).

The development shallowly embeds the core logic of the repository:

* `src/src/utils/confidenceMetrics.ts` — the metrics engine
  (`computeSurprisal`, `computeConfidence`, `computeGap`, `normalizeLocal`,
  `normalizeGlobal`, `computeTokenMetrics`, `computePercentile`);
* `src/src/utils/responseDB.ts` — the IndexedDB-backed record store
  (`init`, `count`, `loadFromFile`, `_loadFromFileInternal`), modelled as
  explicit state passing over a `DBState`, with the asynchronous
  environment (open success, fetch success, transaction success, fetched
  payload) supplied as a `LoadEnv`;
* the point filter (`filteredData`) and the nearest-point picker
  (`handleMouseMove` / `handleClick`) of the embedding visualization
  component.

JavaScript numbers are modelled exactly: functions that only use field
operations and comparisons are stated over an arbitrary linear ordered
field (instantiated at `ℚ` for concrete evaluation and at `ℝ` where the
code uses the transcendental constants `Math.LN2` / `Math.exp`, modelled
as `Real.log 2` / `Real.exp`).
-/

namespace LlmViz

/-! ### JS helpers: spread min/max over an argument list

`Math.min(...values)` / `Math.max(...values)` for a non-empty list.
(In JS the empty spread yields `Infinity` / `-Infinity`, which has no
counterpart in an ordered field; the sources only apply these to
non-empty arrays, and all theorems below that need it carry a
non-emptiness hypothesis.  The empty case is given the junk value 0.) -/
def jsMin {K : Type _} [LinearOrderedField K] : List K → K
  | [] => 0
  | x :: xs => xs.foldl min x

def jsMax {K : Type _} [LinearOrderedField K] : List K → K
  | [] => 0
  | x :: xs => xs.foldl max x

section MinMaxLemmas

variable {K : Type _} [LinearOrderedField K]

lemma foldl_min_le_init (xs : List K) (a : K) : xs.foldl min a ≤ a := by
  induction xs generalizing a with
  | nil => exact le_refl a
  | cons x xs ih =>
    simp only [List.foldl_cons]
    exact le_trans (ih (min a x)) (min_le_left a x)

lemma le_foldl_max_init (xs : List K) (a : K) : a ≤ xs.foldl max a := by
  induction xs generalizing a with
  | nil => exact le_refl a
  | cons x xs ih =>
    simp only [List.foldl_cons]
    exact le_trans (le_max_left a x) (ih (max a x))

lemma foldl_min_le {xs : List K} {a y : K} (hy : y ∈ a :: xs) :
    xs.foldl min a ≤ y := by
  induction xs generalizing a with
  | nil =>
    rw [List.mem_singleton] at hy
    subst hy
    exact le_refl y
  | cons x xs ih =>
    simp only [List.foldl_cons]
    rcases List.mem_cons.1 hy with h | h
    · subst h
      exact le_trans (foldl_min_le_init xs (min y x)) (min_le_left y x)
    · rcases List.mem_cons.1 h with h' | h'
      · subst h'
        exact le_trans (foldl_min_le_init xs (min a y)) (min_le_right a y)
      · exact ih (List.mem_cons_of_mem _ h')

lemma le_foldl_max {xs : List K} {a y : K} (hy : y ∈ a :: xs) :
    y ≤ xs.foldl max a := by
  induction xs generalizing a with
  | nil =>
    rw [List.mem_singleton] at hy
    subst hy
    exact le_refl y
  | cons x xs ih =>
    simp only [List.foldl_cons]
    rcases List.mem_cons.1 hy with h | h
    · subst h
      exact le_trans (le_max_left y x) (le_foldl_max_init xs (max y x))
    · rcases List.mem_cons.1 h with h' | h'
      · subst h'
        exact le_trans (le_max_right a y) (le_foldl_max_init xs (max a y))
      · exact ih (List.mem_cons_of_mem _ h')

lemma foldl_min_mem (xs : List K) (a : K) : xs.foldl min a ∈ a :: xs := by
  induction xs generalizing a with
  | nil => simp
  | cons x xs ih =>
    have h := ih (min a x)
    rcases List.mem_cons.1 h with h' | h'
    · rw [List.foldl_cons, h']
      rcases min_choice a x with hc | hc <;> rw [hc]
      · exact List.mem_cons_self _ _
      · exact List.mem_cons_of_mem _ (List.mem_cons_self _ _)
    · exact List.mem_cons_of_mem _ (List.mem_cons_of_mem _ h')

lemma foldl_max_mem (xs : List K) (a : K) : xs.foldl max a ∈ a :: xs := by
  induction xs generalizing a with
  | nil => simp
  | cons x xs ih =>
    have h := ih (max a x)
    rcases List.mem_cons.1 h with h' | h'
    · rw [List.foldl_cons, h']
      rcases max_choice a x with hc | hc <;> rw [hc]
      · exact List.mem_cons_self _ _
      · exact List.mem_cons_of_mem _ (List.mem_cons_self _ _)
    · exact List.mem_cons_of_mem _ (List.mem_cons_of_mem _ h')

lemma jsMin_le {l : List K} {y : K} (hy : y ∈ l) : jsMin l ≤ y := by
  cases l with
  | nil => cases hy
  | cons x xs => exact foldl_min_le hy

lemma le_jsMax {l : List K} {y : K} (hy : y ∈ l) : y ≤ jsMax l := by
  cases l with
  | nil => cases hy
  | cons x xs => exact le_foldl_max hy

lemma jsMin_mem {l : List K} (h : l ≠ []) : jsMin l ∈ l := by
  cases l with
  | nil => exact absurd rfl h
  | cons x xs => exact foldl_min_mem xs x

lemma jsMax_mem {l : List K} (h : l ≠ []) : jsMax l ∈ l := by
  cases l with
  | nil => exact absurd rfl h
  | cons x xs => exact foldl_max_mem xs x

end MinMaxLemmas

/-! ### Metrics engine (`src/src/utils/confidenceMetrics.ts`) -/

/-- Source `computeSurprisal` (lines 34–36): `-logprob / Math.LN2`, in bits. -/
noncomputable def computeSurprisal (logprob : ℝ) : ℝ :=
  -logprob / Real.log 2

/-- Source `computeConfidence` (lines 43–50): clamp the surprisal at
`maxSurprisal` and invert.  In the source `maxSurprisal` is an optional
parameter defaulting to `10`; here it is always passed explicitly. -/
def computeConfidence {K : Type _} [LinearOrderedField K]
    (surprisal maxSurprisal : K) : K :=
  1 - min surprisal maxSurprisal / maxSurprisal

/-- Source `computeGap` (lines 57–59): chosen minus runner-up logprob, in nats. -/
def computeGap {K : Type _} [LinearOrderedField K] (logprob logprob2 : K) : K :=
  logprob - logprob2

/-- Source `normalizeLocal` (lines 65–74): per-response min-max scaling;
all-equal input maps every entry to `0.5`. -/
def normalizeLocal {K : Type _} [LinearOrderedField K] (values : List K) :
    List K :=
  let mn := jsMin values
  let mx := jsMax values
  if mx = mn then values.map (fun _ => (0.5 : K))
  else values.map (fun v => (v - mn) / (mx - mn))

/-- Source `normalizeGlobal` (lines 80–96): linear map through the `[p5, p95]`
band, clamped into `[0, 1]`; a zero-width band maps everything to `0.5`. -/
def normalizeGlobal {K : Type _} [LinearOrderedField K]
    (values : List K) (p5 p95 : K) : List K :=
  let range := p95 - p5
  if range = 0 then values.map (fun _ => (0.5 : K))
  else values.map (fun v => max 0 (min 1 ((v - p5) / range)))

/-- Source `computePercentile` (lines 232–239): nearest-rank percentile — the
value at index `Math.floor(sorted.length * percentile)` of the
ascending-sorted copy.  An out-of-range index yields `undefined` in JS,
modelled as `none`. -/
def computePercentile {K : Type _} [LinearOrderedField K] [FloorRing K]
    (values : List K) (percentile : K) : Option K :=
  let sorted := values.mergeSort
  let index := ⌊(sorted.length : K) * percentile⌋
  if 0 ≤ index then sorted[index.toNat]? else none

/-- For a non-negative percentile, `computePercentile` looks up index
`⌊n * p⌋` in the (unique) ascending sorted permutation of the input. -/
lemma computePercentile_eq_of_sorted {K : Type _} [LinearOrderedField K]
    [FloorRing K] (values : List K) (p : K) (hp : 0 ≤ p) (l : List K)
    (hperm : l.Perm values) (hsort : l.Sorted (· ≤ ·)) :
    computePercentile values p = l[(⌊(values.length : K) * p⌋).toNat]? := by
  have hms : values.mergeSort = l :=
    List.eq_of_perm_of_sorted ((List.mergeSort_perm values _).trans hperm.symm)
      (List.sorted_mergeSort' values) hsort
  have hlen : l.length = values.length := hperm.length_eq
  have hnonneg : (0 : ℤ) ≤ ⌊(values.length : K) * p⌋ :=
    Int.floor_nonneg.2 (mul_nonneg (Nat.cast_nonneg _) hp)
  simp only [computePercentile, hms, hlen]
  exact if_pos hnonneg

/-! ### Claim theorems for the metrics engine -/

/-- C6: every output of `normalizeLocal` on a non-empty list lies in
`[0, 1]`, and every output of `normalizeGlobal` lies in `[0, 1]`
unconditionally; when all inputs are equal (for `normalizeLocal`) or
`p95 = p5` (for `normalizeGlobal`), every output is exactly `0.5`. -/
theorem normalizeLocal_normalizeGlobal_bounds (K : Type _)
    [LinearOrderedField K] :
    (∀ values : List K, values ≠ [] → ∀ x ∈ normalizeLocal values, 0 ≤ x ∧ x ≤ 1)
    ∧ (∀ values : List K, values ≠ [] → (∀ v ∈ values, ∀ w ∈ values, v = w) →
        ∀ x ∈ normalizeLocal values, x = 0.5)
    ∧ (∀ (values : List K) (p5 p95 : K), ∀ x ∈ normalizeGlobal values p5 p95,
        0 ≤ x ∧ x ≤ 1)
    ∧ (∀ (values : List K) (p5 p95 : K), p95 = p5 →
        ∀ x ∈ normalizeGlobal values p5 p95, x = 0.5) := by
  refine ⟨?_, ?_, ?_, ?_⟩
  · intro values hne x hx
    by_cases h : jsMax values = jsMin values
    · simp only [normalizeLocal, if_pos h, List.mem_map] at hx
      obtain ⟨v, _, rfl⟩ := hx
      norm_num
    · simp only [normalizeLocal, if_neg h, List.mem_map] at hx
      obtain ⟨v, hv, rfl⟩ := hx
      have h1 : jsMin values ≤ v := jsMin_le hv
      have h2 : v ≤ jsMax values := le_jsMax hv
      have hle : jsMin values ≤ jsMax values := jsMin_le (jsMax_mem hne)
      have hlt : jsMin values < jsMax values :=
        lt_of_le_of_ne hle (fun e => h e.symm)
      constructor
      · exact div_nonneg (sub_nonneg.2 h1) (le_of_lt (sub_pos.2 hlt))
      · rw [div_le_one (sub_pos.2 hlt)]
        exact sub_le_sub_right h2 _
  · intro values hne hconst x hx
    have h : jsMax values = jsMin values :=
      hconst _ (jsMax_mem hne) _ (jsMin_mem hne)
    simp only [normalizeLocal, if_pos h, List.mem_map] at hx
    obtain ⟨v, _, rfl⟩ := hx
    rfl
  · intro values p5 p95 x hx
    by_cases h : p95 - p5 = 0
    · simp only [normalizeGlobal, if_pos h, List.mem_map] at hx
      obtain ⟨v, _, rfl⟩ := hx
      norm_num
    · simp only [normalizeGlobal, if_neg h, List.mem_map] at hx
      obtain ⟨v, _, rfl⟩ := hx
      refine ⟨le_max_left 0 _, max_le zero_le_one (min_le_left 1 _)⟩
  · intro values p5 p95 h x hx
    have h0 : p95 - p5 = 0 := by rw [h, sub_self]
    simp only [normalizeGlobal, if_pos h0, List.mem_map] at hx
    obtain ⟨v, _, rfl⟩ := hx
    rfl

/-- C6 witness: concrete instances over `ℚ`. -/
theorem normalizeLocal_normalizeGlobal_bounds_witness :
    (∀ x ∈ normalizeLocal ([1, 2] : List ℚ), 0 ≤ x ∧ x ≤ 1)
    ∧ (∀ x ∈ normalizeLocal ([2, 2] : List ℚ), x = 0.5)
    ∧ (∀ x ∈ normalizeGlobal ([7] : List ℚ) 3 3, x = 0.5) :=
  ⟨(normalizeLocal_normalizeGlobal_bounds ℚ).1 [1, 2] (by decide),
   (normalizeLocal_normalizeGlobal_bounds ℚ).2.1 [2, 2] (by decide) (by decide),
   (normalizeLocal_normalizeGlobal_bounds ℚ).2.2.2 [7] 3 3 rfl⟩

/-- C7: `computePercentile` is nearest-rank lookup — for `0 ≤ p` it
returns the element at index `⌊n * p⌋` of the ascending-sorted copy of
the input; in particular `computePercentile [5,1,4,2,3] 0.4 = 3`. -/
theorem computePercentile_nearest_rank (K : Type _) [LinearOrderedField K]
    [FloorRing K] :
    (∀ (values : List K) (p : K), 0 ≤ p → ∀ l : List K,
        l.Perm values → l.Sorted (· ≤ ·) →
        computePercentile values p = l[(⌊(values.length : K) * p⌋).toNat]?)
    ∧ computePercentile ([5, 1, 4, 2, 3] : List ℚ) 0.4 = some 3 := by
  refine ⟨fun values p hp l h1 h2 => computePercentile_eq_of_sorted values p hp l h1 h2, ?_⟩
  have h := computePercentile_eq_of_sorted ([5, 1, 4, 2, 3] : List ℚ) 0.4
    (by norm_num) [1, 2, 3, 4, 5] (by decide) (by decide)
  rw [h, show ((([5, 1, 4, 2, 3] : List ℚ).length : ℚ) * 0.4) = ((2 : ℤ) : ℚ) by norm_num,
    Int.floor_intCast]
  rfl

/-- C7 witness: instantiation of the general statement at a concrete
sorted permutation. -/
theorem computePercentile_nearest_rank_witness :
    computePercentile ([5, 1, 4, 2, 3] : List ℚ) 0.4
      = ([1, 2, 3, 4, 5] : List ℚ)[(⌊(([5, 1, 4, 2, 3] : List ℚ).length : ℚ) * 0.4⌋).toNat]? :=
  (computePercentile_nearest_rank ℚ).1 [5, 1, 4, 2, 3] 0.4 (by norm_num)
    [1, 2, 3, 4, 5] (by decide) (by decide)

/-- C10: for a non-empty input and `0 ≤ p < 1` the lookup index
`⌊n * p⌋` is in bounds, so `computePercentile` returns an element of the
input; at `p = 1` the index equals the length and the lookup yields
`none` (JS `undefined`). -/
theorem computePercentile_mem_of_lt_one (K : Type _) [LinearOrderedField K]
    [FloorRing K] :
    (∀ (values : List K) (p : K), values ≠ [] → 0 ≤ p → p < 1 →
        ∃ v, computePercentile values p = some v ∧ v ∈ values)
    ∧ ∀ values : List K, computePercentile values (1 : K) = none := by
  constructor
  · intro values p hne hp0 hp1
    have hlen : values.mergeSort.length = values.length :=
      (List.mergeSort_perm values _).length_eq
    have hpos : 0 < values.length := List.length_pos.2 hne
    have hnonneg : (0 : ℤ) ≤ ⌊(values.mergeSort.length : K) * p⌋ :=
      Int.floor_nonneg.2 (mul_nonneg (Nat.cast_nonneg _) hp0)
    have hltK : (values.mergeSort.length : K) * p < ((values.length : ℤ) : K) := by
      push_cast
      rw [hlen]
      calc (values.length : K) * p < (values.length : K) * 1 := by
            exact mul_lt_mul_of_pos_left hp1 (by exact_mod_cast hpos)
        _ = (values.length : K) := mul_one _
    have hlt : ⌊(values.mergeSort.length : K) * p⌋ < (values.length : ℤ) :=
      Int.floor_lt.2 hltK
    have hidx : (⌊(values.mergeSort.length : K) * p⌋).toNat < values.mergeSort.length := by
      omega
    refine ⟨values.mergeSort[(⌊(values.mergeSort.length : K) * p⌋).toNat], ?_, ?_⟩
    · simp only [computePercentile, if_pos hnonneg]
      exact List.getElem?_eq_getElem hidx
    · exact (List.mergeSort_perm values _).subset (List.getElem_mem hidx)
  · intro values
    have hlen : values.mergeSort.length = values.length :=
      (List.mergeSort_perm values _).length_eq
    simp only [computePercentile, mul_one, Int.floor_natCast]
    rw [if_pos (Int.ofNat_nonneg _)]
    apply List.getElem?_eq_none
    simp

/-- C10 witness: concrete instances over `ℚ`. -/
theorem computePercentile_mem_of_lt_one_witness :
    (∃ v, computePercentile ([3, 1] : List ℚ) (1/2) = some v ∧ v ∈ ([3, 1] : List ℚ))
    ∧ computePercentile ([3, 1] : List ℚ) 1 = none :=
  ⟨(computePercentile_mem_of_lt_one ℚ).1 [3, 1] (1/2) (by decide) (by norm_num) (by norm_num),
   (computePercentile_mem_of_lt_one ℚ).2 [3, 1]⟩

/-- C9: `computeSurprisal` is strictly decreasing in the logprob, and for
any positive clamp bound `computeConfidence ∘ computeSurprisal` is
(non-strictly) increasing in the logprob. -/
theorem surprisal_antitone_confidence_monotone (lp1 lp2 : ℝ) (h : lp1 < lp2) :
    computeSurprisal lp1 > computeSurprisal lp2
    ∧ ∀ M : ℝ, 0 < M →
        computeConfidence (computeSurprisal lp1) M
          ≤ computeConfidence (computeSurprisal lp2) M := by
  have hlog : (0 : ℝ) < Real.log 2 := Real.log_pos one_lt_two
  have hs : computeSurprisal lp2 < computeSurprisal lp1 := by
    unfold computeSurprisal
    exact (div_lt_div_iff_of_pos_right hlog).2 (neg_lt_neg h)
  refine ⟨hs, fun M hM => ?_⟩
  unfold computeConfidence
  have hmin : min (computeSurprisal lp2) M ≤ min (computeSurprisal lp1) M :=
    min_le_min (le_of_lt hs) (le_refl M)
  exact sub_le_sub_left ((div_le_div_iff_of_pos_right hM).2 hmin) 1

/-! ### `computeTokenMetrics` (lines 101–173) -/

/-- Per-token metrics record (`TokenMetrics` in the source). -/
structure TokenMetrics where
  token : String
  confidence : ℝ
  logprob : ℝ
  logprob2 : ℝ
  surprisal : ℝ
  confidenceScore : ℝ
  gap : ℝ
  normalizedSurprisal : ℝ
  normalizedConfidence : ℝ
  normalizedGap : ℝ

/-- Source `GlobalStats` (lines 19–24). -/
structure GlobalStats where
  surprisal_p5 : ℝ
  surprisal_p95 : ℝ
  gap_p5 : ℝ
  gap_p95 : ℝ

/-- Source `NormalizationMode` (line 26): the string union `"local" | "global"`
(constructor names avoid the Lean keyword `local`). -/
inductive NormalizationMode where
  | localNorm
  | globalNorm
deriving DecidableEq

/-- Source `computeTokenMetrics` (lines 101–173).  The JS index-aligned array
accesses `xs[i]` are modelled with `List.getD i` (all call sites pass
length-matched arrays; an out-of-bounds JS access would yield
`undefined`).  The `throw` for global mode without stats is modelled as
`none`.  Note that the clamp bound passed to `computeConfidence` is
`Math.max(...surprisals)` (line 114), not the function's default `10`. -/
noncomputable def computeTokenMetrics (tokens : List String)
    (logprobs logprobs2 : List ℝ) (mode : NormalizationMode)
    (globalStats : Option GlobalStats) : Option (List TokenMetrics) :=
  let surprisals := logprobs.map computeSurprisal
  let gaps := List.zipWith computeGap logprobs logprobs2
  let maxSurprisal := jsMax surprisals
  let confidenceScores := surprisals.map (fun s => computeConfidence s maxSurprisal)
  let normalized : Option (List ℝ × List ℝ × List ℝ) :=
    match mode with
    | NormalizationMode.localNorm =>
        some (normalizeLocal surprisals, normalizeLocal gaps,
          normalizeLocal confidenceScores)
    | NormalizationMode.globalNorm =>
        match globalStats with
        | none => none
        | some gs =>
            let confidenceP5 := computeConfidence gs.surprisal_p95 maxSurprisal
            let confidenceP95 := computeConfidence gs.surprisal_p5 maxSurprisal
            some (normalizeGlobal surprisals gs.surprisal_p5 gs.surprisal_p95,
              normalizeGlobal gaps gs.gap_p5 gs.gap_p95,
              normalizeGlobal confidenceScores confidenceP5 confidenceP95)
  match normalized with
  | none => none
  | some (ns, ng, nc) =>
      some ((List.range tokens.length).map (fun i =>
        { token := tokens.getD i ""
          confidence := Real.exp (logprobs.getD i 0)
          logprob := logprobs.getD i 0
          logprob2 := logprobs2.getD i 0
          surprisal := (logprobs.map computeSurprisal).getD i 0
          confidenceScore := confidenceScores.getD i 0
          gap := gaps.getD i 0
          normalizedSurprisal := ns.getD i 0
          normalizedConfidence := nc.getD i 0
          normalizedGap := ng.getD i 0 }))

/-- Structural lemma: whenever `computeTokenMetrics` succeeds, the
`confidenceScore` column is `computeConfidence` of the surprisal column
with the per-call maximum surprisal as clamp bound, and the `surprisal`
column is `computeSurprisal` of the logprobs. -/
lemma computeTokenMetrics_columns (tokens : List String)
    (logprobs logprobs2 : List ℝ) (mode : NormalizationMode)
    (gs : Option GlobalStats)
    (hgs : mode = NormalizationMode.globalNorm → gs ≠ none) :
    ((computeTokenMetrics tokens logprobs logprobs2 mode gs).getD []).map
        TokenMetrics.confidenceScore
      = (List.range tokens.length).map (fun i =>
          ((logprobs.map computeSurprisal).map (fun s =>
            computeConfidence s (jsMax (logprobs.map computeSurprisal)))).getD i 0)
    ∧ ((computeTokenMetrics tokens logprobs logprobs2 mode gs).getD []).map
        TokenMetrics.surprisal
      = (List.range tokens.length).map (fun i =>
          (logprobs.map computeSurprisal).getD i 0) := by
  cases mode with
  | localNorm =>
    simp only [computeTokenMetrics, Option.getD_some, List.map_map]
    exact ⟨rfl, rfl⟩
  | globalNorm =>
    cases gs with
    | none => exact absurd rfl (hgs rfl)
    | some st =>
      simp only [computeTokenMetrics, Option.getD_some, List.map_map]
      exact ⟨rfl, rfl⟩

/-- C1 (amended): in every successful `computeTokenMetrics` call, the
`i`-th token's `confidenceScore` equals
`1 - surprisalᵢ / max(surprisals)` — the clamp bound passed to
`computeConfidence` is the per-call maximum surprisal (line 114), not
the fixed default `10`, and the `min` clamp therefore never bites. -/
theorem computeTokenMetrics_confidenceScore_eq (tokens : List String)
    (logprobs logprobs2 : List ℝ) (mode : NormalizationMode)
    (gs : Option GlobalStats) (i : ℕ)
    (hi : i < tokens.length) (hil : i < logprobs.length)
    (hgs : mode = NormalizationMode.globalNorm → gs ≠ none) :
    (((computeTokenMetrics tokens logprobs logprobs2 mode gs).getD []).map
        TokenMetrics.confidenceScore).getD i 0
      = 1 - (logprobs.map computeSurprisal).getD i 0
            / jsMax (logprobs.map computeSurprisal) := by
  have hcol := (computeTokenMetrics_columns tokens logprobs logprobs2 mode gs hgs).1
  rw [hcol]
  have hrange : ((List.range tokens.length).map (fun j =>
      ((logprobs.map computeSurprisal).map (fun s =>
        computeConfidence s (jsMax (logprobs.map computeSurprisal)))).getD j 0)).getD i 0
      = ((logprobs.map computeSurprisal).map (fun s =>
          computeConfidence s (jsMax (logprobs.map computeSurprisal)))).getD i 0 := by
    rw [List.getD_eq_getElem?_getD, List.getElem?_map, List.getElem?_range hi]
    rfl
  rw [hrange]
  have hlen' : i < (logprobs.map computeSurprisal).length := by simpa using hil
  have hmem : (logprobs.map computeSurprisal).getD i 0 ∈ logprobs.map computeSurprisal := by
    rw [List.getD_eq_getElem?_getD, List.getElem?_eq_getElem hlen']
    exact List.getElem_mem hlen'
  have hget : ((logprobs.map computeSurprisal).map (fun s =>
      computeConfidence s (jsMax (logprobs.map computeSurprisal)))).getD i 0
      = computeConfidence ((logprobs.map computeSurprisal).getD i 0)
          (jsMax (logprobs.map computeSurprisal)) := by
    simp [List.getD_eq_getElem?_getD, List.getElem?_map, List.getElem?_eq_getElem hlen',
      List.getElem?_eq_getElem hil]
  rw [hget]
  unfold computeConfidence
  rw [min_eq_left (le_jsMax hmem)]

/-- C1 witness: a concrete one-token local-mode call. -/
theorem computeTokenMetrics_confidenceScore_eq_witness :
    (((computeTokenMetrics ["a"] [-Real.log 2] [0] NormalizationMode.localNorm
        none).getD []).map TokenMetrics.confidenceScore).getD 0 0
      = 1 - ([-Real.log 2].map computeSurprisal).getD 0 0
            / jsMax ([-Real.log 2].map computeSurprisal) :=
  computeTokenMetrics_confidenceScore_eq ["a"] [-Real.log 2] [0]
    NormalizationMode.localNorm none 0 (by decide) (by decide) (by simp)

/-- C1 counterexample: a two-token call whose surprisals are `5` and
`20` bits.  The code yields `confidenceScore = 3/4` for the first token
(clamp bound is the call's maximum surprisal `20`), while the claimed
formula `1 - min(surprisal, 10)/10` would yield `1/2`. -/
theorem computeTokenMetrics_counterexample :
    (((computeTokenMetrics ["a", "b"]
        [-(5 * Real.log 2), -(20 * Real.log 2)] [0, 0]
        NormalizationMode.localNorm none).getD []).map
          TokenMetrics.surprisal = [5, 20])
    ∧ (((computeTokenMetrics ["a", "b"]
        [-(5 * Real.log 2), -(20 * Real.log 2)] [0, 0]
        NormalizationMode.localNorm none).getD []).map
          TokenMetrics.confidenceScore = [3/4, 0])
    ∧ (3 / 4 : ℝ) ≠ 1 - min 5 10 / 10 := by
  have hlog : Real.log 2 ≠ 0 := ne_of_gt (Real.log_pos one_lt_two)
  have hs5 : computeSurprisal (-(5 * Real.log 2)) = 5 := by
    unfold computeSurprisal
    rw [neg_neg]
    exact mul_div_cancel_right₀ 5 hlog
  have hs20 : computeSurprisal (-(20 * Real.log 2)) = 20 := by
    unfold computeSurprisal
    rw [neg_neg]
    exact mul_div_cancel_right₀ 20 hlog
  have hsur : ([-(5 * Real.log 2), -(20 * Real.log 2)] : List ℝ).map computeSurprisal
      = [5, 20] := by
    simp [hs5, hs20]
  have hmax : jsMax ([5, 20] : List ℝ) = 20 := by
    simp [jsMax]
    norm_num [max_eq_right]
  have hcols := computeTokenMetrics_columns ["a", "b"]
    [-(5 * Real.log 2), -(20 * Real.log 2)] [0, 0]
    NormalizationMode.localNorm none (by simp)
  refine ⟨?_, ?_, by norm_num⟩
  · rw [hcols.2, hsur]
    simp [List.range_succ]
  · rw [hcols.1, hsur, hmax]
    have hc5 : computeConfidence (5 : ℝ) 20 = 3 / 4 := by
      unfold computeConfidence
      rw [min_eq_left (by norm_num)]
      norm_num
    have hc20 : computeConfidence (20 : ℝ) 20 = 0 := by
      unfold computeConfidence
      rw [min_eq_left (by norm_num)]
      norm_num
    simp [List.range_succ, hc5, hc20]

/-- C9 witness: logprobs `-2 < -1` with the default clamp bound `10`. -/
theorem surprisal_antitone_confidence_monotone_witness :
    computeSurprisal (-2 : ℝ) > computeSurprisal (-1 : ℝ)
    ∧ computeConfidence (computeSurprisal (-2 : ℝ)) 10
        ≤ computeConfidence (computeSurprisal (-1 : ℝ)) 10 :=
  ⟨(surprisal_antitone_confidence_monotone (-2) (-1) (by norm_num)).1,
   (surprisal_antitone_confidence_monotone (-2) (-1) (by norm_num)).2 10 (by norm_num)⟩

/-! ### Record store (`src/src/utils/responseDB.ts`)

The `ResponseDB` class is asynchronous, but JavaScript is single
threaded: every method runs atomically between `await` points, and both
memoized promises (`initPromise`, `loadPromise`) are assigned
synchronously before the first suspension, so any later call — including
one issued while the operation is still in flight — observes the memo
and attaches to the same operation.  The class is therefore modelled as
explicit state passing: each method maps a `DBState` to a result
(`Except DBError`) and a new state, the memoized promises become the
settled results `initResult` / `loadResult`, and the environment
(whether the IndexedDB open succeeds, whether the fetch succeeds,
whether the write transaction commits, and the fetched payload) is a
`LoadEnv`.  Calls to the `onProgress` callback are recorded in
`progressLog` (the third component models the optional `fromCache`
argument, `none` when the source omits it), and `fetchCount` counts the
`fetch(url)` calls issued. -/

/-- Source `ResponseData` (lines 10–21): the short-key record layout. -/
structure ResponseData where
  i : Int
  p : String
  r : String
  t : List String
  c : List ℚ
  lp : Option (List ℚ)
  lp2 : Option (List ℚ)
  g : Option String
  a : Option String
  x : Option Int
deriving DecidableEq

/-- Failure modes of the store (rejected promises in the source). -/
inductive DBError where
  | openFailed
  | notInitialized
  | fetchFailed
  | txFailed
deriving DecidableEq

/-- Asynchronous environment of a load: outcome of the IndexedDB `open`
request, of `fetch(url)`, of the write transaction, and the payload the
fetch would deliver. -/
structure LoadEnv where
  openOk : Bool
  fetchOk : Bool
  txOk : Bool
  payload : List ResponseData
deriving DecidableEq

deriving instance DecidableEq for Except

/-- State of the `ResponseDB` singleton: the `db` handle (present or
not), the settled results of the memoized `initPromise` / `loadPromise`,
the stored records (keyed by `i`), plus the observation log. -/
structure DBState where
  db : Bool
  initResult : Option (Except DBError Unit)
  loadResult : Option (Except DBError Unit)
  store : List ResponseData
  fetchCount : Nat
  progressLog : List (Nat × Nat × Option Bool)
deriving DecidableEq

namespace ResponseDB

/-- The state of the fresh singleton `new ResponseDB()` (line 184). -/
def initialState : DBState :=
  { db := false, initResult := none, loadResult := none, store := [],
    fetchCount := 0, progressLog := [] }

/-- Source `init` (lines 28–62).  Returns immediately when the handle exists or
the memoized `initPromise` is settled; otherwise performs the open
request, which the environment resolves.  (The `onupgradeneeded` schema
migration only manipulates object stores inside a successful open and is
not modelled — no claim depends on it.) -/
def init (env : LoadEnv) (s : DBState) : Except DBError Unit × DBState :=
  if s.db then (Except.ok (), s)
  else
    match s.initResult with
    | some res => (res, s)
    | none =>
        if env.openOk then
          (Except.ok (), { s with db := true, initResult := some (Except.ok ()) })
        else
          (Except.error DBError.openFailed,
           { s with initResult := some (Except.error DBError.openFailed) })

/-- Source `count` (lines 151–162): `await init()` (propagating its failure),
then `0` if the handle is absent, else the number of stored records. -/
def count (env : LoadEnv) (s : DBState) : Except DBError Nat × DBState :=
  match init env s with
  | (Except.error e, s1) => (Except.error e, s1)
  | (Except.ok _, s1) =>
      if s1.db then (Except.ok s1.store.length, s1) else (Except.ok 0, s1)

/-- Source `store.put(item)` inside the ingestion transaction (line 111):
upsert keyed by `i` — overwrite the record with the same key if present,
insert otherwise. -/
def putRecord (store : List ResponseData) (item : ResponseData) :
    List ResponseData :=
  if store.any (fun rcd => rcd.i = item.i) then
    store.map (fun rcd => if rcd.i = item.i then item else rcd)
  else store ++ [item]

/-- The ingestion write loop (lines 106–116): put every payload item,
reporting progress every 100 records (`fromCache` omitted). -/
def writeLoop (total : Nat) :
    List ResponseData → Nat → List ResponseData →
    List (Nat × Nat × Option Bool) →
    List ResponseData × Nat × List (Nat × Nat × Option Bool)
  | [], loaded, store, log => (store, loaded, log)
  | item :: rest, loaded, store, log =>
      let store2 := putRecord store item
      let loaded2 := loaded + 1
      let log2 :=
        if loaded2 % 100 = 0 then log ++ [(loaded2, total, none)] else log
      writeLoop total rest loaded2 store2 log2

/-- Source `_loadFromFileInternal` (lines 77–135): init, cache-hit check via
`count`, fetch, write transaction with progress reporting, final
`(total, total)` progress call on commit.  (On a transaction failure the
records written before it are kept, following §7 of the design notes.) -/
def loadFromFileInternal (env : LoadEnv) (s : DBState) :
    Except DBError Unit × DBState :=
  match init env s with
  | (Except.error e, s1) => (Except.error e, s1)
  | (Except.ok _, s1) =>
      if ¬ s1.db then (Except.error DBError.notInitialized, s1)
      else
        match count env s1 with
        | (Except.error e, s2) => (Except.error e, s2)
        | (Except.ok n, s2) =>
            if 0 < n then
              (Except.ok (),
               { s2 with progressLog := s2.progressLog ++ [(n, n, some true)] })
            else if ¬ env.fetchOk then (Except.error DBError.fetchFailed, s2)
            else
              let s3 := { s2 with fetchCount := s2.fetchCount + 1 }
              let total := env.payload.length
              let w := writeLoop total env.payload 0 s3.store s3.progressLog
              if env.txOk then
                (Except.ok (),
                 { s3 with store := w.1,
                           progressLog := w.2.2 ++ [(total, total, none)] })
              else
                (Except.error DBError.txFailed,
                 { s3 with store := w.1, progressLog := w.2.2 })

/-- Source `loadFromFile` (lines 64–75): attach to the memoized `loadPromise`
when one exists, otherwise run the internal load and memoize its
result. -/
def loadFromFile (env : LoadEnv) (s : DBState) :
    Except DBError Unit × DBState :=
  match s.loadResult with
  | some res => (res, s)
  | none =>
      let w := loadFromFileInternal env s
      (w.1, { w.2 with loadResult := some w.1 })

/-- Second and later calls attach: with a memoized result, `loadFromFile`
returns it and leaves the state untouched. -/
lemma loadFromFile_memo {env : LoadEnv} {s : DBState}
    {res : Except DBError Unit} (h : s.loadResult = some res) :
    loadFromFile env s = (res, s) := by
  unfold loadFromFile
  rw [h]

/-- Every `loadFromFile` call leaves its own result memoized. -/
lemma loadFromFile_sets_memo (env : LoadEnv) (s : DBState) :
    (loadFromFile env s).2.loadResult = some (loadFromFile env s).1 := by
  unfold loadFromFile
  cases h : s.loadResult with
  | none => rfl
  | some res => simp [h]

/-! #### Key-set accounting for the ingestion loop -/

/-- The key column of the store. -/
def storeKeys (store : List ResponseData) : List Int :=
  store.map ResponseData.i

lemma any_key_iff (store : List ResponseData) (item : ResponseData) :
    store.any (fun rcd => rcd.i = item.i) = true ↔ item.i ∈ storeKeys store := by
  rw [List.any_eq_true]
  constructor
  · rintro ⟨rcd, hrcd, hp⟩
    rw [decide_eq_true_eq] at hp
    exact List.mem_map.2 ⟨rcd, hrcd, hp⟩
  · rintro h
    obtain ⟨rcd, hrcd, hp⟩ := List.mem_map.1 h
    exact ⟨rcd, hrcd, decide_eq_true hp⟩

lemma storeKeys_put_of_mem {store : List ResponseData} {item : ResponseData}
    (h : store.any (fun rcd => rcd.i = item.i) = true) :
    storeKeys (putRecord store item) = storeKeys store := by
  unfold putRecord
  rw [if_pos h]
  unfold storeKeys
  rw [List.map_map]
  apply List.map_congr_left
  intro rcd _
  by_cases hr : rcd.i = item.i <;> simp [hr]

lemma storeKeys_put_of_not_mem {store : List ResponseData} {item : ResponseData}
    (h : ¬ store.any (fun rcd => rcd.i = item.i) = true) :
    storeKeys (putRecord store item) = storeKeys store ++ [item.i] := by
  unfold putRecord
  rw [if_neg h]
  unfold storeKeys
  rw [List.map_append]
  rfl

lemma storeKeys_putRecord_toFinset (store : List ResponseData)
    (item : ResponseData) :
    (storeKeys (putRecord store item)).toFinset
      = insert item.i (storeKeys store).toFinset := by
  by_cases h : store.any (fun rcd => rcd.i = item.i) = true
  · rw [storeKeys_put_of_mem h]
    exact (Finset.insert_eq_self.2 (List.mem_toFinset.2 ((any_key_iff store item).1 h))).symm
  · rw [storeKeys_put_of_not_mem h, List.toFinset_append]
    rw [Finset.union_comm]
    simp [Finset.insert_eq]

lemma storeKeys_putRecord_nodup {store : List ResponseData}
    {item : ResponseData} (h : (storeKeys store).Nodup) :
    (storeKeys (putRecord store item)).Nodup := by
  by_cases hmem : store.any (fun rcd => rcd.i = item.i) = true
  · rw [storeKeys_put_of_mem hmem]
    exact h
  · rw [storeKeys_put_of_not_mem hmem]
    have hni : item.i ∉ storeKeys store := fun hc =>
      hmem ((any_key_iff store item).2 hc)
    simp [List.nodup_append, h, hni]

lemma writeLoop_keys_toFinset (total : Nat) (payload : List ResponseData) :
    ∀ (loaded : Nat) (store : List ResponseData)
      (log : List (Nat × Nat × Option Bool)),
      (storeKeys (writeLoop total payload loaded store log).1).toFinset
        = (storeKeys store).toFinset ∪ (payload.map ResponseData.i).toFinset := by
  induction payload with
  | nil => intro loaded store log; simp [writeLoop]
  | cons item rest ih =>
    intro loaded store log
    rw [writeLoop]
    rw [ih]
    rw [storeKeys_putRecord_toFinset]
    simp [Finset.insert_union, Finset.union_insert]

lemma writeLoop_keys_nodup (total : Nat) (payload : List ResponseData) :
    ∀ (loaded : Nat) (store : List ResponseData)
      (log : List (Nat × Nat × Option Bool)),
      (storeKeys store).Nodup →
      (storeKeys (writeLoop total payload loaded store log).1).Nodup := by
  induction payload with
  | nil => intro loaded store log h; exact h
  | cons item rest ih =>
    intro loaded store log h
    rw [writeLoop]
    exact ih _ _ _ (storeKeys_putRecord_nodup h)

/-- Ingesting a payload into an empty store leaves exactly one record
per distinct payload key. -/
lemma writeLoop_length_from_empty (total : Nat) (payload : List ResponseData)
    (log : List (Nat × Nat × Option Bool)) :
    (writeLoop total payload 0 [] log).1.length
      = (payload.map ResponseData.i).dedup.length := by
  have hnd : (storeKeys (writeLoop total payload 0 [] log).1).Nodup :=
    writeLoop_keys_nodup total payload 0 [] log (by simp [storeKeys])
  have hfin : (storeKeys (writeLoop total payload 0 [] log).1).toFinset
      = (payload.map ResponseData.i).toFinset := by
    rw [writeLoop_keys_toFinset]
    simp [storeKeys]
  calc (writeLoop total payload 0 [] log).1.length
      = (storeKeys (writeLoop total payload 0 [] log).1).length := by
        simp [storeKeys]
    _ = (storeKeys (writeLoop total payload 0 [] log).1).toFinset.card := by
        rw [List.toFinset_card_of_nodup hnd]
    _ = (payload.map ResponseData.i).toFinset.card := by rw [hfin]
    _ = (payload.map ResponseData.i).dedup.length := List.card_toFinset _

/-! #### Claim theorems for the record store -/

lemma count_of_db (env : LoadEnv) {s : DBState} (h : s.db = true) :
    count env s = (Except.ok s.store.length, s) := by
  simp [count, init, h]

lemma count_of_open (env : LoadEnv) {s : DBState} (hopen : env.openOk = true)
    (hinit : s.initResult = none) :
    (count env s).1 = Except.ok s.store.length := by
  cases hdb : s.db with
  | true => rw [count_of_db env hdb]
  | false => simp [count, init, hdb, hinit, hopen]

lemma count_of_open_fail (env : LoadEnv) {s : DBState}
    (hopen : env.openOk = false) (hdb : s.db = false)
    (hinit : s.initResult = none) :
    (count env s).1 = Except.error DBError.openFailed := by
  simp [count, init, hdb, hinit, hopen]

/-- C3 (amended): `count` returns the number of stored records whenever
the store is (or can be) opened; but when the open request fails,
`count` propagates the open failure instead of returning `0` — the
`if (!this.db) return 0` guard is unreachable because the failed `init`
already rejects. -/
theorem count_spec (env : LoadEnv) (s : DBState) :
    (s.db = true → count env s = (Except.ok s.store.length, s))
    ∧ (env.openOk = true → s.initResult = none →
        (count env s).1 = Except.ok s.store.length)
    ∧ (env.openOk = false → s.db = false → s.initResult = none →
        (count env s).1 = Except.error DBError.openFailed) :=
  ⟨fun h => count_of_db env h,
   fun hopen hinit => count_of_open env hopen hinit,
   fun hopen hdb hinit => count_of_open_fail env hopen hdb hinit⟩

/-- Record used to build concrete witness states. -/
def sampleRecord : ResponseData :=
  { i := 5, p := "", r := "", t := [], c := [], lp := none, lp2 := none,
    g := none, a := none, x := none }

/-- Benign empty-payload environment (for witnesses). -/
def envEmpty : LoadEnv :=
  { openOk := true, fetchOk := true, txOk := true, payload := [] }

/-- Environment whose IndexedDB open request fails. -/
def envNoOpen : LoadEnv :=
  { openOk := false, fetchOk := true, txOk := true, payload := [] }

/-- An already-opened store holding one record (for witnesses). -/
def warmState : DBState :=
  { db := true, initResult := some (Except.ok ()), loadResult := none,
    store := [sampleRecord], fetchCount := 0, progressLog := [] }

/-- C3 witness: an opened store holding one record. -/
theorem count_spec_witness :
    count envEmpty warmState = (Except.ok warmState.store.length, warmState) :=
  (count_spec envEmpty warmState).1 rfl

/-- C3 counterexample: when the open request fails, `count` on the fresh
singleton yields the open error, not `Except.ok 0` as the claim states. -/
theorem count_counterexample :
    (count envNoOpen initialState).1 = Except.error DBError.openFailed
    ∧ (count envNoOpen initialState).1 ≠ Except.ok 0 := by
  constructor
  · rfl
  · decide

/-- Full evaluation of a first load from the fresh singleton under a
benign environment: one fetch, the payload upserted into the empty
store, the result memoized. -/
lemma load_from_initial (env : LoadEnv) (h1 : env.openOk = true)
    (h2 : env.fetchOk = true) (h3 : env.txOk = true) :
    loadFromFile env initialState =
      (Except.ok (),
       { db := true, initResult := some (Except.ok ()),
         loadResult := some (Except.ok ()),
         store := (writeLoop env.payload.length env.payload 0 [] []).1,
         fetchCount := 1,
         progressLog := (writeLoop env.payload.length env.payload 0 [] []).2.2
           ++ [(env.payload.length, env.payload.length, none)] }) := by
  simp [loadFromFile, loadFromFileInternal, init, count, initialState, h1, h2, h3]

/-- C4: a second `loadFromFile` call attaches to the memoized result of
the first — it returns the same result and does not change the state
(hence issues no fetch and writes nothing) — the first call performs
exactly one fetch, and the final `count` equals the number of distinct
ids in the payload. -/
theorem loadFromFile_second_call_attaches (env : LoadEnv)
    (h1 : env.openOk = true) (h2 : env.fetchOk = true)
    (h3 : env.txOk = true) :
    loadFromFile env (loadFromFile env initialState).2
      = ((loadFromFile env initialState).1, (loadFromFile env initialState).2)
    ∧ (loadFromFile env initialState).2.fetchCount = 1
    ∧ (count env (loadFromFile env (loadFromFile env initialState).2).2).1
        = Except.ok ((env.payload.map ResponseData.i).dedup.length) := by
  have hsecond : loadFromFile env (loadFromFile env initialState).2
      = ((loadFromFile env initialState).1, (loadFromFile env initialState).2) :=
    loadFromFile_memo (loadFromFile_sets_memo env initialState)
  have hload := load_from_initial env h1 h2 h3
  refine ⟨hsecond, ?_, ?_⟩
  · rw [hload]
  · rw [hsecond, hload]
    rw [count_of_db env rfl]
    exact congrArg Except.ok (writeLoop_length_from_empty _ _ _)

/-- Benign environment whose payload repeats an id (for the C4 witness). -/
def envTwice : LoadEnv :=
  { openOk := true, fetchOk := true, txOk := true,
    payload := [sampleRecord, sampleRecord] }

/-- C4 witness: a benign environment whose payload repeats an id. -/
theorem loadFromFile_second_call_attaches_witness :
    loadFromFile envTwice (loadFromFile envTwice initialState).2
      = ((loadFromFile envTwice initialState).1,
         (loadFromFile envTwice initialState).2)
    ∧ (loadFromFile envTwice initialState).2.fetchCount = 1
    ∧ (count envTwice
        (loadFromFile envTwice (loadFromFile envTwice initialState).2).2).1
        = Except.ok ((envTwice.payload.map ResponseData.i).dedup.length) :=
  loadFromFile_second_call_attaches envTwice rfl rfl rfl

/-- C5: when the opened store already holds `N > 0` records, a load is a
cache hit — it succeeds, reports progress exactly once as
`(N, N, fromCache := true)`, issues no fetch, and writes nothing. -/
theorem load_cache_hit (env : LoadEnv) (s : DBState) (hdb : s.db = true)
    (hload : s.loadResult = none) (hN : 0 < s.store.length) :
    (loadFromFile env s).1 = Except.ok ()
    ∧ (loadFromFile env s).2.progressLog
        = s.progressLog ++ [(s.store.length, s.store.length, some true)]
    ∧ (loadFromFile env s).2.fetchCount = s.fetchCount
    ∧ (loadFromFile env s).2.store = s.store := by
  have hcount : count env s = (Except.ok s.store.length, s) := count_of_db env hdb
  simp [loadFromFile, hload, loadFromFileInternal, init, hdb, hcount, hN]

/-- C5 witness: an opened store holding one record. -/
theorem load_cache_hit_witness :
    (loadFromFile envEmpty warmState).1 = Except.ok ()
    ∧ (loadFromFile envEmpty warmState).2.progressLog
      = warmState.progressLog
          ++ [(warmState.store.length, warmState.store.length, some true)]
    ∧ (loadFromFile envEmpty warmState).2.fetchCount = warmState.fetchCount
    ∧ (loadFromFile envEmpty warmState).2.store = warmState.store :=
  load_cache_hit envEmpty warmState rfl rfl (by decide)

end ResponseDB

/-! ### Embedding visualization (`src/src/components/EmbeddingVisualization.tsx`) -/

/-- Source `DataPoint` (lines 341–349): a plotted point.  `isCorrect` and
`avgConfidence` are optional fields (`undefined` modelled as `none`). -/
structure DataPoint where
  x : ℚ
  y : ℚ
  cluster : Int
  id : Int
  question : String
  isCorrect : Option Int
  avgConfidence : Option ℚ
deriving DecidableEq

/-- Source `CorrectnessFilterType` (line 26): `"all" | "correct" | "incorrect"`. -/
inductive CorrectnessFilterType where
  | all
  | correct
  | incorrect
deriving DecidableEq

/-- The confidence-range test inside `filteredData` (lines 449–456):
only a present `avgConfidence` can exclude a point. -/
def confidenceExcluded (range1 range2 : ℚ) : Option ℚ → Bool
  | some c => decide (c < range1) || decide (range2 < c)
  | none => false

/-- The predicate of `data.filter` in `filteredData` (lines 444–463):
sequential early-return tests for cluster membership, the confidence
range, and the correctness choice. -/
def pointPasses (activeClusters : List Int) (range : ℚ × ℚ)
    (cf : CorrectnessFilterType) (d : DataPoint) : Bool :=
  if ¬ activeClusters.contains d.cluster then false
  else if confidenceExcluded range.1 range.2 d.avgConfidence then false
  else if cf = CorrectnessFilterType.correct ∧ d.isCorrect ≠ some 1 then false
  else if cf = CorrectnessFilterType.incorrect ∧ d.isCorrect ≠ some 0 then false
  else true

/-- Source `filteredData` (lines 444–463). -/
def filteredData (data : List DataPoint) (activeClusters : List Int)
    (range : ℚ × ℚ) (cf : CorrectnessFilterType) : List DataPoint :=
  data.filter (fun d => pointPasses activeClusters range cf d)

/-- Spec-side cluster predicate: the point's cluster is toggled on. -/
def clusterPred (activeClusters : List Int) (d : DataPoint) : Prop :=
  d.cluster ∈ activeClusters

/-- Spec-side confidence predicate: a present `avgConfidence` must lie in
the selected range; an absent one passes for every bound. -/
def confidencePred (range : ℚ × ℚ) (d : DataPoint) : Prop :=
  ∀ c, d.avgConfidence = some c → range.1 ≤ c ∧ c ≤ range.2

/-- Spec-side correctness predicate, amended to what the code does: the
`"correct"` / `"incorrect"` choices demand the field to be present and
equal to `1` / `0`; a point with absent `isCorrect` passes only `"all"`. -/
def correctnessPred (cf : CorrectnessFilterType) (d : DataPoint) : Prop :=
  match cf with
  | CorrectnessFilterType.all => True
  | CorrectnessFilterType.correct => d.isCorrect = some 1
  | CorrectnessFilterType.incorrect => d.isCorrect = some 0

lemma pointPasses_iff (activeClusters : List Int) (range : ℚ × ℚ)
    (cf : CorrectnessFilterType) (d : DataPoint) :
    pointPasses activeClusters range cf d = true ↔
      clusterPred activeClusters d ∧ confidencePred range d
        ∧ correctnessPred cf d := by
  unfold pointPasses clusterPred confidencePred correctnessPred
  cases hc : d.avgConfidence with
  | none => cases cf <;> simp [confidenceExcluded, hc]
  | some c => cases cf <;> simp [confidenceExcluded, hc, not_or, not_lt]

/-- C2 (amended): membership in the visible subset is exactly the
conjunction of the cluster, confidence-range, and correctness
predicates; a point with absent `avgConfidence` passes the confidence
predicate for every bound, but a point with absent `isCorrect` passes
the correctness predicate only under the `"all"` choice — under
`"correct"` and `"incorrect"` it is excluded. -/
theorem filteredData_mem_iff (data : List DataPoint)
    (activeClusters : List Int) (range : ℚ × ℚ)
    (cf : CorrectnessFilterType) (d : DataPoint) :
    (d ∈ filteredData data activeClusters range cf ↔
      d ∈ data ∧ clusterPred activeClusters d ∧ confidencePred range d
        ∧ correctnessPred cf d)
    ∧ (d.avgConfidence = none → confidencePred range d)
    ∧ (d.isCorrect = none →
        (correctnessPred CorrectnessFilterType.all d
          ∧ ¬ correctnessPred CorrectnessFilterType.correct d
          ∧ ¬ correctnessPred CorrectnessFilterType.incorrect d)) := by
  refine ⟨?_, ?_, ?_⟩
  · rw [filteredData, List.mem_filter, pointPasses_iff]
  · intro h c hc
    rw [h] at hc
    cases hc
  · intro h
    refine ⟨trivial, ?_, ?_⟩ <;>
      simp [correctnessPred, h]

/-! ### Nearest-point picker (`handleMouseMove` / `handleClick`)

The in-repository picker (`src/unnamed/part_000`, lines 355–375 and
379–400) linearly scans the filtered point set, keeping the point whose
screen-space Euclidean distance to the pointer is strictly below the
running minimum, initialized to the pick radius of 20 px.  (The current
`EmbeddingVisualization.tsx` delegates the same query with a 15 px
radius to `d3.quadtree(...).find`, which is library code outside the
repository.)  The screen projection `transform.apply(xScale(·))` is
abstracted as a pair of functions `px`, `py`. -/

/-- Screen-space distance `Math.sqrt((cx - mx) ** 2 + (cy - my) ** 2)`. -/
noncomputable def screenDist (px py : DataPoint → ℝ) (mx my : ℝ)
    (d : DataPoint) : ℝ :=
  Real.sqrt ((px d - mx) ^ 2 + (py d - my) ^ 2)

/-- The scan loop of `handleMouseMove`: the accumulator holds
`(nearest, minDist)`. -/
noncomputable def pickLoop (px py : DataPoint → ℝ) (mx my : ℝ) :
    List DataPoint → Option DataPoint × ℝ → Option DataPoint × ℝ
  | [], acc => acc
  | d :: rest, acc =>
      if screenDist px py mx my d < acc.2 then
        pickLoop px py mx my rest (some d, screenDist px py mx my d)
      else pickLoop px py mx my rest acc

/-- The picker: scan with `minDist` initialized to the 20 px radius. -/
noncomputable def pick (px py : DataPoint → ℝ) (mx my : ℝ)
    (pts : List DataPoint) : Option DataPoint :=
  (pickLoop px py mx my pts (none, 20)).1

/-- Invariant of the scan: either no point beat the initial bound and
the accumulator is returned unchanged, or the result is the first point
attaining the strict running minimum. -/
lemma pickLoop_spec (px py : DataPoint → ℝ) (mx my : ℝ)
    (pts : List DataPoint) :
    ∀ (nearest : Option DataPoint) (m : ℝ),
      (pickLoop px py mx my pts (nearest, m) = (nearest, m)
        ∧ ∀ e ∈ pts, m ≤ screenDist px py mx my e)
      ∨ (∃ l d r, pts = l ++ d :: r
          ∧ pickLoop px py mx my pts (nearest, m)
              = (some d, screenDist px py mx my d)
          ∧ screenDist px py mx my d < m
          ∧ (∀ e ∈ l, screenDist px py mx my d < screenDist px py mx my e)
          ∧ ∀ e ∈ r, screenDist px py mx my d ≤ screenDist px py mx my e) := by
  induction pts with
  | nil => intro nearest m; exact Or.inl ⟨rfl, by simp⟩
  | cons a rest ih =>
    intro nearest m
    by_cases ha : screenDist px py mx my a < m
    · rw [show pickLoop px py mx my (a :: rest) (nearest, m)
          = pickLoop px py mx my rest (some a, screenDist px py mx my a) by
        rw [pickLoop]; rw [if_pos ha]]
      rcases ih (some a) (screenDist px py mx my a) with ⟨heq, hall⟩ | ⟨l, d, r, hsplit, heq, hlt, hbefore, hafter⟩
      · exact Or.inr ⟨[], a, rest, rfl, heq, ha, by simp, hall⟩
      · refine Or.inr ⟨a :: l, d, r, by simp [hsplit], heq, lt_trans hlt ha, ?_, hafter⟩
        intro e he
        rcases List.mem_cons.1 he with rfl | he'
        · exact hlt
        · exact hbefore e he'
    · rw [show pickLoop px py mx my (a :: rest) (nearest, m)
          = pickLoop px py mx my rest (nearest, m) by
        rw [pickLoop]; rw [if_neg ha]]
      rcases ih nearest m with ⟨heq, hall⟩ | ⟨l, d, r, hsplit, heq, hlt, hbefore, hafter⟩
      · refine Or.inl ⟨heq, ?_⟩
        intro e he
        rcases List.mem_cons.1 he with rfl | he'
        · exact not_lt.1 ha
        · exact hall e he'
      · refine Or.inr ⟨a :: l, d, r, by simp [hsplit], heq, hlt, ?_, hafter⟩
        intro e he
        rcases List.mem_cons.1 he with rfl | he'
        · exact lt_of_lt_of_le hlt (not_lt.1 ha)
        · exact hbefore e he'

/-- C8: whenever the picker returns a point, that point belongs to the
scanned set, its screen distance to the pointer is strictly below the
20 px pick radius, and it minimizes the distance over the whole set,
with ties broken toward the point encountered first (every earlier point
is strictly farther); and when every point is at or beyond the radius,
the picker returns no point. -/
theorem pick_nearest_within_radius (px py : DataPoint → ℝ) (mx my : ℝ)
    (pts : List DataPoint) :
    (∀ d, pick px py mx my pts = some d →
        d ∈ pts
        ∧ screenDist px py mx my d < 20
        ∧ (∀ e ∈ pts, screenDist px py mx my d ≤ screenDist px py mx my e)
        ∧ ∃ l r, pts = l ++ d :: r
            ∧ ∀ e ∈ l, screenDist px py mx my d < screenDist px py mx my e)
    ∧ ((∀ e ∈ pts, 20 ≤ screenDist px py mx my e) →
        pick px py mx my pts = none) := by
  constructor
  · intro d hd
    rcases pickLoop_spec px py mx my pts none 20 with ⟨heq, _⟩ | ⟨l, d', r, hsplit, heq, hlt, hbefore, hafter⟩
    · rw [pick, heq] at hd
      cases hd
    · rw [pick, heq] at hd
      have hdd : d' = d := by simpa using hd
      rw [hdd] at hsplit hlt hbefore hafter
      have hmem : d ∈ pts := by
        rw [hsplit]
        exact List.mem_append_right l (List.mem_cons_self d r)
      refine ⟨hmem, hlt, ?_, l, r, hsplit, hbefore⟩
      intro e he
      rw [hsplit] at he
      rcases List.mem_append.1 he with he' | he'
      · exact le_of_lt (hbefore e he')
      · rcases List.mem_cons.1 he' with rfl | he''
        · exact le_refl _
        · exact hafter e he''
  · intro hfar
    rcases pickLoop_spec px py mx my pts none 20 with ⟨heq, _⟩ | ⟨l, d', r, hsplit, heq, hlt, _, _⟩
    · rw [pick, heq]
    · have hmem : d' ∈ pts := by
        rw [hsplit]
        exact List.mem_append_right l (List.mem_cons_self d' r)
      exact absurd hlt (not_lt.2 (hfar d' hmem))

/-- Screen points used in the C8 witness: `nearPoint` projects to
`(3, 4)` (distance 5 from the origin pointer) and `farPoint` to
`(18, 24)` (distance 30). -/
def nearPoint : DataPoint :=
  { x := 3, y := 4, cluster := 0, id := 0, question := "",
    isCorrect := none, avgConfidence := none }

def farPoint : DataPoint :=
  { x := 18, y := 24, cluster := 0, id := 1, question := "",
    isCorrect := none, avgConfidence := none }

/-- The identity projection used in the C8 witness. -/
noncomputable def projX : DataPoint → ℝ := fun d => (d.x : ℝ)

noncomputable def projY : DataPoint → ℝ := fun d => (d.y : ℝ)

lemma screenDist_nearPoint : screenDist projX projY 0 0 nearPoint = 5 := by
  unfold screenDist projX projY nearPoint
  rw [show (((3 : ℚ) : ℝ) - 0) ^ 2 + (((4 : ℚ) : ℝ) - 0) ^ 2 = 5 ^ 2 by norm_num]
  exact Real.sqrt_sq (by norm_num)

lemma screenDist_farPoint : screenDist projX projY 0 0 farPoint = 30 := by
  unfold screenDist projX projY farPoint
  rw [show (((18 : ℚ) : ℝ) - 0) ^ 2 + (((24 : ℚ) : ℝ) - 0) ^ 2 = 30 ^ 2 by norm_num]
  exact Real.sqrt_sq (by norm_num)

/-- On the witness configuration the picker selects the 5 px point. -/
lemma pick_witness_eval :
    pick projX projY 0 0 [nearPoint, farPoint] = some nearPoint := by
  unfold pick
  rw [pickLoop, if_pos (by rw [screenDist_nearPoint]; norm_num)]
  rw [pickLoop, if_neg (by rw [screenDist_farPoint, screenDist_nearPoint]; norm_num)]
  rw [pickLoop]

/-- C8 witness: with points at screen distance 5 px and 30 px from the
pointer, the picker returns the 5 px point, which is nearest. -/
theorem pick_nearest_within_radius_witness :
    nearPoint ∈ [nearPoint, farPoint]
    ∧ screenDist projX projY 0 0 nearPoint < 20
    ∧ (∀ e ∈ [nearPoint, farPoint],
        screenDist projX projY 0 0 nearPoint ≤ screenDist projX projY 0 0 e)
    ∧ ∃ l r, [nearPoint, farPoint] = l ++ nearPoint :: r
        ∧ ∀ e ∈ l, screenDist projX projY 0 0 nearPoint < screenDist projX projY 0 0 e :=
  (pick_nearest_within_radius projX projY 0 0 [nearPoint, farPoint]).1
    nearPoint pick_witness_eval

/-- Point used in the C2 witness and counterexample: cluster `3`, both
optional fields absent. -/
def bareDataPoint : DataPoint :=
  { x := 0, y := 0, cluster := 3, id := 7, question := "",
    isCorrect := none, avgConfidence := none }

/-- C2 witness: the amended equivalence at a concrete point. -/
theorem filteredData_mem_iff_witness :
    (bareDataPoint ∈ filteredData [bareDataPoint] [3] (0, 1)
        CorrectnessFilterType.all ↔
      bareDataPoint ∈ [bareDataPoint] ∧ clusterPred [3] bareDataPoint
        ∧ confidencePred (0, 1) bareDataPoint
        ∧ correctnessPred CorrectnessFilterType.all bareDataPoint)
    ∧ confidencePred (0, 1) bareDataPoint :=
  ⟨(filteredData_mem_iff [bareDataPoint] [3] (0, 1)
      CorrectnessFilterType.all bareDataPoint).1,
   (filteredData_mem_iff [bareDataPoint] [3] (0, 1)
      CorrectnessFilterType.all bareDataPoint).2.1 rfl⟩

/-- C2 counterexample: a point whose cluster is toggled on and whose
optional fields are both absent is excluded under the `"correct"`
filter, although the claim says an absent `isCorrect` passes the
correctness filter for every filter choice. -/
theorem filteredData_counterexample :
    bareDataPoint.cluster ∈ ([3] : List Int)
    ∧ bareDataPoint.avgConfidence = none
    ∧ bareDataPoint.isCorrect = none
    ∧ filteredData [bareDataPoint] [3] (0, 1) CorrectnessFilterType.correct
        = [] := by
  refine ⟨?_, rfl, rfl, ?_⟩
  · decide
  · decide

end LlmViz
